import Mathlib

/-!
Shallow embedding of the MediaUni repository (an exam-tracker client in
`src/src/App.tsx` and a plan-store HTTP server in `src/server.js`).
JavaScript numbers are modelled as `ℚ` (with `Option ℚ` where `NaN` /
non-finite values matter), machine strings as Lean `String` / `List Char`.
The JavaScript `Number(string)` primitive is kept abstract as a parameter
`toNum : String → Option ℚ` (`none` standing for `NaN`), so every theorem
about code that parses numbers holds for any interpretation of that
primitive.
-/

/-- JavaScript whitespace class `\s`, restricted to the ASCII range
(space, tab, line feed, carriage return, vertical tab, form feed). -/
def jsWs (c : Char) : Bool :=
  c = ' ' || c = '\t' || c = '\n' || c = '\r' || c = '\x0b' || c = '\x0c'

/-- `String.prototype.trim` on a character list: drop whitespace at both ends. -/
def jsTrimL (cs : List Char) : List Char :=
  ((cs.dropWhile jsWs).reverse.dropWhile jsWs).reverse

/-- `String.prototype.trim`. -/
def jsTrim (s : String) : String :=
  String.mk (jsTrimL s.data)

/-- `.toLowerCase()` (ASCII). -/
def toLowerL (cs : List Char) : List Char :=
  cs.map Char.toLower

/-- `.replace(/\s+/g, " ")`: collapse every maximal whitespace run to one space. -/
def collapseWsL : List Char → List Char
  | [] => []
  | c :: rest =>
    if jsWs c then
      match collapseWsL rest with
      | ' ' :: tail => ' ' :: tail
      | other => ' ' :: other
    else
      c :: collapseWsL rest

/-- `.replace(",", ".")`: replace only the first comma with a dot. -/
def commaToDotL : List Char → List Char
  | [] => []
  | c :: rest => if c = ',' then '.' :: rest else c :: commaToDotL rest

/-- `.replace(/^"|"$/g, "")`: strip one leading and one trailing quote character. -/
def stripQuotesL (cs : List Char) : List Char :=
  let afterLead := match cs with
    | '"' :: rest => rest
    | other => other
  match afterLead.reverse with
  | '"' :: rest => rest.reverse
  | _ => afterLead

/-- The byte-order-mark character U+FEFF. -/
def bomChar : Char := Char.ofNat 0xFEFF

/-- `.replace(/^﻿/, "")`: strip a single leading byte-order-mark character. -/
def stripBomL (cs : List Char) : List Char :=
  match cs with
  | c :: rest => if c = bomChar then rest else c :: rest
  | [] => []

/-- `.replace(/\x00/g, "")`: remove every NUL character. -/
def stripNulsL (cs : List Char) : List Char :=
  cs.filter (fun c => c ≠ '\x00')

/-- Split on `/\r?\n/`: a line feed, optionally preceded by a carriage return,
separates lines (a lone carriage return does not). -/
def splitLinesL : List Char → List (List Char)
  | [] => [[]]
  | '\r' :: '\n' :: rest => [] :: splitLinesL rest
  | '\n' :: rest => [] :: splitLinesL rest
  | c :: rest =>
    match splitLinesL rest with
    | [] => [[c]]
    | l :: ls => (c :: l) :: ls

/-- `String.prototype.split(sep)` for a one-character separator. -/
def splitSepL (sep : Char) : List Char → List (List Char)
  | [] => [[]]
  | c :: rest =>
    if c = sep then
      [] :: splitSepL sep rest
    else
      match splitSepL sep rest with
      | [] => [[c]]
      | l :: ls => (c :: l) :: ls

/-- Count occurrences of a character (the `(line.match(/;/g) ?? []).length` idiom). -/
def countCharL (c : Char) (cs : List Char) : Nat :=
  (cs.filter (fun x => x = c)).length

/-- Whether the character-list `pat` occurs at the front of `s`. -/
def leadsWith : List Char → List Char → Bool
  | [], _ => true
  | _ :: _, [] => false
  | p :: ps, c :: cs => p = c && leadsWith ps cs

/-- Whether `pat` occurs contiguously anywhere in `s`
(JavaScript `String.prototype.includes`). -/
def hasSeg (pat : List Char) : List Char → Bool
  | [] => leadsWith pat []
  | c :: cs => leadsWith pat (c :: cs) || hasSeg pat cs

/-! ## Client data model (`src/src/App.tsx`) -/

/-- The client-local exam record (`type Exam`). -/
structure Exam where
  id : String
  name : String
  cfu : Int
  grade : String
  deriving DecidableEq

/-- A study-plan row (`type PlanRow`). -/
structure PlanRow where
  codice : String
  denominazione : String
  cfu : Int
  deriving DecidableEq

/-- `parseGrade`: trim; empty means no grade; otherwise parse with the JS
`Number` primitive `toNum` and require a finite value in `[0, 30]`. -/
def parseGrade (toNum : String → Option ℚ) (s : String) : Option ℚ :=
  let t := jsTrim s
  if t = "" then none
  else
    match toNum t with
    | none => none
    | some n => if n < 0 ∨ 30 < n then none else some n

/-- `parseCfu`: a non-finite number becomes `0`, otherwise `max 0 ⌊n⌋`. -/
def parseCfu : Option ℚ → Int
  | none => 0
  | some n => max 0 ⌊n⌋

/-- `weightedAverage`: fold accumulating `(sum, total)` over the exams whose
grade parses and whose cfu is positive; `none` when the total is zero. -/
def weightedAverage (toNum : String → Option ℚ) (exams : List Exam) : Option ℚ :=
  let p := exams.foldl
    (fun (acc : ℚ × ℚ) e =>
      match parseGrade toNum e.grade with
      | none => acc
      | some g => if e.cfu ≤ (0 : Int) then acc else (acc.1 + g * (e.cfu : ℚ), acc.2 + (e.cfu : ℚ)))
    (0, 0)
  if p.2 = 0 then none else some (p.1 / p.2)

/-- `normKey`: lower-cased, whitespace-collapsed, trimmed title joined with
the cfu by a `|`. -/
def normKey (name : String) (cfu : Int) : String :=
  String.mk (collapseWsL (toLowerL (jsTrimL name.data))) ++ "|" ++ toString cfu

/-! ## CSV parsing (`parseCsvAuto` and friends) -/

/-- JS object assignment `obj[k] = v` on a string-keyed record: overwrite the
existing entry for `k` in place, else append. -/
def recSet (m : List (String × String)) (k v : String) : List (String × String) :=
  if m.any (fun p => p.1 = k) then
    m.map (fun p => if p.1 = k then (k, v) else p)
  else
    m ++ [(k, v)]

/-- `r[k] ?? ""`: look a field up, defaulting to the empty string. -/
def recGet (m : List (String × String)) (k : String) : String :=
  match m.find? (fun p => p.1 = k) with
  | some p => p.2
  | none => ""

/-- `parseCsvAuto`: strip a leading BOM, split into non-blank lines, sniff the
delimiter on the header line (`;` unless commas strictly outnumber semicolons),
split the header and each data line on it, trimming and unquoting fields, and
build one record per data line keyed by the headers. -/
def parseCsvAuto (text : String) :
    List String × List (List (String × String)) × String :=
  let lines := (splitLinesL (stripBomL text.data)).filter (fun l => jsTrimL l ≠ [])
  if lines.length < 2 then ([], [], ";")
  else
    let headerLine := lines.headD []
    let semis := countCharL ';' headerLine
    let commas := countCharL ',' headerLine
    let sep := if semis ≥ commas then ';' else ','
    let headers :=
      (splitSepL sep headerLine).map
        (fun s => String.mk (stripQuotesL (stripBomL (jsTrimL s))))
    let dataRows :=
      (lines.drop 1).map (fun line =>
        let cols := splitSepL sep line
        headers.enum.foldl
          (fun m p =>
            recSet m p.2 (String.mk (stripQuotesL (jsTrimL (cols.getD p.1 [])))))
          [])
    (headers, dataRows, String.mk [sep])

/-- `normalizeHeaderName`: strip a leading BOM remnant, remove NUL bytes, trim. -/
def normalizeHeaderName (s : String) : String :=
  String.mk (jsTrimL (stripNulsL (stripBomL s.data)))

/-- The expected CSV header row. -/
def expectedHeaders : List String := ["Codice", "Denominazione", "CFU"]

/-- `requireExactHeaders`: compare normalized found headers against normalized
expected headers, order- and case-sensitively; on mismatch produce the error
naming both. -/
def requireExactHeaders (headers expected : List String) : Except String Unit :=
  let got := headers.map normalizeHeaderName
  let exp := expected.map normalizeHeaderName
  if got = exp then Except.ok ()
  else
    Except.error ("Header CSV non valido.\n" ++ "Atteso: " ++
      String.intercalate ";" exp ++ "\n" ++ "Trovato: " ++
      String.intercalate ";" got)

/-- `parseCourseFromFilename`: the trimmed name must be two digits, a hyphen,
two digits, then `.csv` case-insensitively; the two digit groups are returned. -/
def parseCourseFromFilename (name : String) : Option (String × String) :=
  match jsTrimL name.data with
  | [a, b, '-', c, d, '.', e1, e2, e3] =>
    if a.isDigit && b.isDigit && c.isDigit && d.isDigit &&
        e1.toLower = 'c' && e2.toLower = 's' && e3.toLower = 'v' then
      some (String.mk [a, b], String.mk [c, d])
    else
      none
  | _ => none

/-! ## Encoding detection (`readFileTextUtf8OrUtf16`) -/

/-- The encodings the reader can choose. -/
inductive Enc where
  | utf8
  | utf16le
  | utf16be
  deriving DecidableEq

/-- Byte-order mark FF FE (UTF-16LE). -/
def bomU16Le (bytes : List Nat) : Bool :=
  match bytes with
  | a :: b :: _ => a = 0xff && b = 0xfe
  | _ => false

/-- Byte-order mark FE FF (UTF-16BE). -/
def bomU16Be (bytes : List Nat) : Bool :=
  match bytes with
  | a :: b :: _ => a = 0xfe && b = 0xff
  | _ => false

/-- Byte-order mark EF BB BF (UTF-8). -/
def bomU8 (bytes : List Nat) : Bool :=
  match bytes with
  | a :: b :: c :: _ => a = 0xef && b = 0xbb && c = 0xbf
  | _ => false

/-- The loop `for (i = 1; i < sampleLen; i += 2) if (bytes[i] === 0) zeroOdd++`:
walk the sample two bytes at a time and count the zero second bytes. -/
def zeroOddLoop : List Nat → Nat
  | _ :: b :: rest => (if b = 0 then 1 else 0) + zeroOddLoop rest
  | _ => 0

/-- `readFileTextUtf8OrUtf16`, restricted to the encoding choice: honour a BOM;
otherwise sample at most 4000 bytes, compute `zeroOdd / max(1, sampleLen / 2)`
in exact arithmetic, and pick UTF-16LE when that exceeds `0.2`.  (All reachable
quotients here are rationals with denominator at most 8000, which float
arithmetic separates from `0.2` exactly as exact arithmetic does, so `ℚ` is a
faithful model of the JS comparison.) -/
def detectEncoding (bytes : List Nat) : Enc :=
  if bomU16Le bytes then Enc.utf16le
  else if bomU16Be bytes then Enc.utf16be
  else if bomU8 bytes then Enc.utf8
  else
    let sampleLen := min bytes.length 4000
    let zeroOdd := zeroOddLoop (bytes.take sampleLen)
    if (1 / 5 : ℚ) < (zeroOdd : ℚ) / max 1 ((sampleLen : ℚ) / 2) then Enc.utf16le
    else Enc.utf8

/-! ## Plan lookup & merge (`addSelectedFromFound`) -/

/-- The merge key of a fetched plan row. -/
def rowKey (r : PlanRow) : String :=
  normKey r.denominazione r.cfu

/-- The merge keys of the current local exam list. -/
def examKeys (exams : List Exam) : List String :=
  exams.map (fun e => normKey e.name e.cfu)

/-- The selection loop of `addSelectedFromFound`: keep a row unless its key is
in `existing`; a kept row's key joins `existing` for the rest of the loop. -/
def mergeChosen (existing : List String) : List PlanRow → List PlanRow
  | [] => []
  | r :: rest =>
    if existing.contains (rowKey r) then mergeChosen existing rest
    else r :: mergeChosen (rowKey r :: existing) rest

/-- Turn chosen plan rows into fresh exams (ids drawn from the supply `ids`,
grade empty). -/
def mkExamsFromRows (ids : Nat → String) (rows : List PlanRow) : List Exam :=
  rows.enum.map (fun p => Exam.mk (ids p.1) p.2.denominazione p.2.cfu "")

/-- `addSelectedFromFound`: append the chosen rows as new exams and report the
skipped count. -/
def addSelectedFromFound (prev : List Exam) (selected : List PlanRow)
    (ids : Nat → String) : List Exam × Nat :=
  let chosen := mergeChosen (examKeys prev) selected
  let toAdd := mkExamsFromRows ids chosen
  (prev ++ toAdd, selected.length - toAdd.length)

/-! ## Plan store service (`src/server.js`) -/

/-- A stored plan document (row of the `plans` table). -/
structure Plan where
  code : String
  rows : List PlanRow
  updated_at : String
  deriving DecidableEq

/-- The observable HTTP responses of `POST /api/plans`. -/
inductive Resp where
  | ok (data : Plan)
  | badRequest (msg : String)
  | conflict (code : String)
  | internalError (msg : String)
  deriving DecidableEq

/-- `CODE_RE = /^\d{2}-\d{2}$/`. -/
def codeOk (s : String) : Bool :=
  match s.data with
  | [a, b, '-', c, d] => a.isDigit && b.isDigit && c.isDigit && d.isDigit
  | _ => false

/-- The `cleaned` pipeline of the POST handler: trim both text fields, then
keep only rows with non-blank fields and integer cfu in `[1, 30]`, then cap at
200 rows. -/
def cleanRows (rows : List PlanRow) : List PlanRow :=
  ((rows.map (fun r => PlanRow.mk (jsTrim r.codice) (jsTrim r.denominazione) r.cfu)).filter
    (fun r => r.codice != "" && r.denominazione != "" &&
      decide ((1 : Int) ≤ r.cfu) && decide (r.cfu ≤ (30 : Int)))).take 200

/-- The storage-level insert with the unique-key constraint on `code`: fail
with a duplicate-key message when the code is present, else append. -/
def dbInsert (st : List Plan) (p : Plan) : Except String (List Plan × Plan) :=
  if (st.find? (fun q => q.code == p.code)).isSome then
    Except.error "duplicate key value violates unique constraint"
  else
    Except.ok (st ++ [p], p)

/-- The `POST /api/plans` handler over typed (shape-validated) rows, split at
the race point: the existence check reads `checkStore`, the insert runs against
`insertStore` (the two coincide when no concurrent writer interferes).  Returns
the response and the resulting store. -/
def postPlansRace (checkStore insertStore : List Plan) (now code : String)
    (rows : List PlanRow) : Resp × List Plan :=
  if code = "" then (Resp.badRequest "No code", insertStore)
  else
    let ct := jsTrim code
    if codeOk ct = false then (Resp.badRequest "Bad code", insertStore)
    else if rows = [] then (Resp.badRequest "No rows", insertStore)
    else
      let cleaned := cleanRows rows
      if cleaned = [] then (Resp.badRequest "No valid rows after cleaning", insertStore)
      else if (checkStore.find? (fun q => q.code == ct)).isSome then
        (Resp.conflict ct, insertStore)
      else
        match dbInsert insertStore (Plan.mk ct cleaned now) with
        | Except.ok (st2, rec) => (Resp.ok rec, st2)
        | Except.error msg =>
          if hasSeg "duplicate".data (toLowerL msg.data) then (Resp.conflict ct, insertStore)
          else (Resp.internalError msg, insertStore)

/-- `POST /api/plans` with no concurrent writer. -/
def postPlans (store : List Plan) (now code : String) (rows : List PlanRow) :
    Resp × List Plan :=
  postPlansRace store store now code rows

/-! ## CSV import pipeline (`onPickPlanFile` / `handleCsvUpload`) -/

/-- Row normalization of `onPickPlanFile`: trim and unquote the two text
fields, trim the CFU field and turn its first comma into a dot, then parse it
with the JS `Number` primitive and coerce through `parseCfu`. -/
def normalizeRow (toNum : String → Option ℚ) (m : List (String × String)) : PlanRow :=
  let codice := String.mk (stripQuotesL (jsTrimL (recGet m "Codice").data))
  let den := String.mk (stripQuotesL (jsTrimL (recGet m "Denominazione").data))
  let cfuRaw := String.mk (commaToDotL (jsTrimL (recGet m "CFU").data))
  PlanRow.mk codice den (parseCfu (toNum cfuRaw))

/-- The row filter of `onPickPlanFile`: both text fields non-empty, cfu
strictly positive. -/
def keepRow (r : PlanRow) : Bool :=
  r.codice != "" && r.denominazione != "" && decide ((0 : Int) < r.cfu)

/-- The client state touched by the import handler. -/
structure ClientState where
  exams : List Exam
  status : String
  courseXX : String
  courseYY : String
  deriving DecidableEq

/-- Outcome of the `GET /api/plans/:code` existence check seen by the client. -/
inductive CheckResult where
  | okFound
  | notFound
  | errStatus (status : String) (txt : String)
  deriving DecidableEq

/-- The network and user-interaction environment of one import: the check
outcome, the user's answer to the overwrite prompt, and the save outcome
(`none` = saved, `some body` = failure body). -/
structure NetEnv where
  check : CheckResult
  confirm : Bool
  save : Option String
  deriving DecidableEq

/-- The save tail of `onPickPlanFile` (from `setStatus("Salvataggio…")` on). -/
def savePhase (net : NetEnv) (st : ClientState) (code : String) :
    ClientState × Option String :=
  let st3 : ClientState := { st with status := "Salvataggio (" ++ code ++ ")..." }
  match net.save with
  | some body => (st3, some ("Errore salvataggio API: " ++ body))
  | none => ({ st3 with status := "Piano salvato." }, none)

/-- `onPickPlanFile` as an explicit state transformer: each `setX` call is a
state update in source order; a `throw` returns the state reached so far
together with the error message. -/
def onPickPlanFile (toNum : String → Option ℚ) (net : NetEnv) (ids : Nat → String)
    (st : ClientState) (fname text : String) : ClientState × Option String :=
  match parseCourseFromFilename fname with
  | none => (st, some "Nome file non valido. Deve essere tipo \"70-89.csv\".")
  | some (xx, yy) =>
    let code := xx ++ "-" ++ yy
    let st1 : ClientState := { st with courseXX := xx, courseYY := yy }
    let parsed := parseCsvAuto text
    match requireExactHeaders parsed.1 expectedHeaders with
    | Except.error e => (st1, some e)
    | Except.ok _ =>
      let planRows := (parsed.2.1.map (normalizeRow toNum)).filter keepRow
      if planRows = [] then
        (st1, some "CSV valido ma nessuna riga utile (Codice/Denominazione/CFU vuoti?).")
      else
        let next := mkExamsFromRows ids planRows
        let st2 : ClientState :=
          { st1 with exams := next, status := "Verifico il piano " ++ code ++ "..." }
        match net.check with
        | CheckResult.errStatus s txt =>
          (st2, some ("Errore verifica (" ++ s ++ "): " ++ txt))
        | CheckResult.okFound =>
          if net.confirm then savePhase net st2 code
          else ({ st2 with status := "Piano caricato in UI, ma NON salvato(annullato)." }, none)
        | CheckResult.notFound => savePhase net st2 code

/-- `handleCsvUpload`: set the pending status, run the handler, and turn a
thrown error into an error status. -/
def handleCsvUpload (toNum : String → Option ℚ) (net : NetEnv) (ids : Nat → String)
    (st : ClientState) (fname text : String) : ClientState :=
  let st0 : ClientState := { st with status := "Caricamento piano…" }
  match onPickPlanFile toNum net ids st0 fname text with
  | (st', none) => st'
  | (st', some e) => { st' with status := "Errore: " ++ e }

/-- The pure parse pipeline of an import, stage by stage: filename contract,
CSV tokenization, header validation, row normalization.  Succeeds with the
derived plan code and the normalized rows exactly when every stage succeeds. -/
def fullParse (toNum : String → Option ℚ) (fname text : String) :
    Except String (String × List PlanRow) :=
  match parseCourseFromFilename fname with
  | none => Except.error "Nome file non valido. Deve essere tipo \"70-89.csv\"."
  | some (xx, yy) =>
    let parsed := parseCsvAuto text
    match requireExactHeaders parsed.1 expectedHeaders with
    | Except.error e => Except.error e
    | Except.ok _ =>
      let planRows := (parsed.2.1.map (normalizeRow toNum)).filter keepRow
      if planRows = [] then
        Except.error "CSV valido ma nessuna riga utile (Codice/Denominazione/CFU vuoti?)."
      else
        Except.ok (xx ++ "-" ++ yy, planRows)

/-! ## Helper lemmas -/

theorem filter_map_factor {α β : Type} (f : α → β) (p : β → Bool) :
    ∀ l : List α, (l.map f).filter p = (l.filter (fun a => p (f a))).map f := by
  intro l
  induction l with
  | nil => rfl
  | cons a t ih =>
    simp only [List.map_cons, List.filter_cons]
    by_cases h : p (f a) = true
    · simp [h, ih]
    · simp only [Bool.not_eq_true] at h
      simp [h, ih]

theorem enumFrom_map_snd {α β : Type} (f : α → β) :
    ∀ (n : Nat) (l : List α), (List.enumFrom n l).map (fun p => f p.2) = l.map f := by
  intro n l
  induction l generalizing n with
  | nil => rfl
  | cons a t ih => simp [List.enumFrom, ih]

theorem mkExamsFromRows_proj (ids : Nat → String) (rows : List PlanRow) :
    (mkExamsFromRows ids rows).map (fun e => (e.name, e.cfu, e.grade)) =
      rows.map (fun r => (r.denominazione, r.cfu, ("" : String))) := by
  simp only [mkExamsFromRows, List.enum, List.map_map]
  exact enumFrom_map_snd (fun r => (r.denominazione, r.cfu, ("" : String))) 0 rows

theorem mkExamsFromRows_length (ids : Nat → String) (rows : List PlanRow) :
    (mkExamsFromRows ids rows).length = rows.length := by
  simp [mkExamsFromRows, List.enum]

/-! ## C6: header validation -/

/-- C6: header validation succeeds exactly when the normalized found headers
are `Codice`, `Denominazione`, `CFU` in order, case-sensitively; the wrong-case
header row `Codice;Denominazione;Cfu` fails with the error naming the expected
and the found headers. -/
theorem C6_header_validation :
    (∀ hs : List String,
      requireExactHeaders hs expectedHeaders = Except.ok () ↔
        hs.map normalizeHeaderName = ["Codice", "Denominazione", "CFU"]) ∧
    requireExactHeaders ["Codice", "Denominazione", "Cfu"] expectedHeaders =
      Except.error
        ("Header CSV non valido.\nAtteso: Codice;Denominazione;CFU\nTrovato: Codice;Denominazione;Cfu") := by
  have hexp : expectedHeaders.map normalizeHeaderName = ["Codice", "Denominazione", "CFU"] := by
    decide
  constructor
  · intro hs
    simp only [requireExactHeaders, hexp]
    by_cases h : hs.map normalizeHeaderName = ["Codice", "Denominazione", "CFU"]
    · simp [h]
    · simp [h]
  · rfl

/-! ## C9: filename contract -/

/-- C9: the import accepts a file name exactly when the trimmed name is two
digits, a hyphen, two digits and a case-insensitive `.csv` extension; `7-89.csv`
is rejected, `07-89.csv` yields the digit groups `07` and `89`; and a plan code
produced by a successful parse is derived from the file name's digit groups,
never from the file content. -/
theorem C9_filename_contract :
    parseCourseFromFilename "7-89.csv" = none ∧
    parseCourseFromFilename "07-89.csv" = some ("07", "89") ∧
    (∀ name xx yy, parseCourseFromFilename name = some (xx, yy) →
      ∃ a b c d e1 e2 e3, jsTrimL name.data = [a, b, '-', c, d, '.', e1, e2, e3] ∧
        a.isDigit = true ∧ b.isDigit = true ∧ c.isDigit = true ∧ d.isDigit = true ∧
        e1.toLower = 'c' ∧ e2.toLower = 's' ∧ e3.toLower = 'v' ∧
        xx = String.mk [a, b] ∧ yy = String.mk [c, d]) ∧
    (∀ name a b c d e1 e2 e3, jsTrimL name.data = [a, b, '-', c, d, '.', e1, e2, e3] →
      a.isDigit = true → b.isDigit = true → c.isDigit = true → d.isDigit = true →
      e1.toLower = 'c' → e2.toLower = 's' → e3.toLower = 'v' →
      parseCourseFromFilename name = some (String.mk [a, b], String.mk [c, d])) ∧
    (∀ (toNum : String → Option ℚ) (fname text code : String) (rows : List PlanRow),
      fullParse toNum fname text = Except.ok (code, rows) →
      ∃ xx yy, parseCourseFromFilename fname = some (xx, yy) ∧ code = xx ++ "-" ++ yy) := by
  refine ⟨rfl, rfl, ?_, ?_, ?_⟩
  · intro name xx yy h
    unfold parseCourseFromFilename at h
    split at h
    · rename_i a b c d e1 e2 e3 heq
      split at h
      · rename_i hcond
        simp only [Bool.and_eq_true, decide_eq_true_eq] at hcond
        obtain ⟨⟨⟨⟨⟨⟨ha, hb⟩, hc⟩, hd⟩, he1⟩, he2⟩, he3⟩ := hcond
        have h2 := Prod.ext_iff.mp (Option.some_inj.mp h)
        exact ⟨a, b, c, d, e1, e2, e3, heq, ha, hb, hc, hd, he1, he2, he3,
          h2.1.symm, h2.2.symm⟩
      · exact absurd h (by simp)
    · exact absurd h (by simp)
  · intro name a b c d e1 e2 e3 heq ha hb hc hd he1 he2 he3
    unfold parseCourseFromFilename
    rw [heq]
    simp [ha, hb, hc, hd, he1, he2, he3]
  · intro toNum fname text code rows h
    simp only [fullParse] at h
    split at h
    · exact absurd h (by simp)
    · rename_i xx yy heq
      refine ⟨xx, yy, heq, ?_⟩
      split at h
      · exact absurd h (by simp)
      · split at h
        · exact absurd h (by simp)
        · injection h with h2
          exact (Prod.ext_iff.mp h2).1.symm

/-! ## Test fixtures used by witnesses -/

/-- A sample interpretation of the JS `Number` primitive, defined only on the
inputs the witnesses exercise. -/
def numFixture : String → Option ℚ :=
  fun s =>
    if s = "6" then some 6
    else if s = "30.5" then some (Rat.mk' 61 2 (by decide) (by decide))
    else none

/-- A sample id supply. -/
def idsFixture : Nat → String := fun i => toString i

/-- A sample network environment (plan not present remotely, save succeeds). -/
def netFixture : NetEnv := NetEnv.mk CheckResult.notFound true none

/-- A sample fetched plan row. -/
def rowFixture : PlanRow := PlanRow.mk "c1" "Analisi 1" 6

/-- The plan document the C3 witness inserts. -/
def planFixture : Plan := Plan.mk "07-89" [PlanRow.mk "A" "B" 6] "t1"

/-- C9 witness: on the concrete file `07-89.csv` with a well-formed CSV body,
the full parse succeeds and the derived code is `07-89`, built from the file
name's digit groups. -/
theorem C9_filename_contract_witness :
    ∃ xx yy, parseCourseFromFilename "07-89.csv" = some (xx, yy) ∧
      "07-89" = xx ++ "-" ++ yy := by
  apply C9_filename_contract.2.2.2.2 numFixture "07-89.csv"
    "Codice;Denominazione;CFU\nA;B;6" "07-89" [PlanRow.mk "A" "B" 6]
  rfl

/-! ## C7: encoding detection -/

/-- Claim-side count: the zero bytes sitting at odd offsets of the list. -/
def zeroesAtOddOffsets (bytes : List Nat) : Nat :=
  (bytes.enum.filter (fun p => p.1 % 2 = 1 && p.2 = 0)).length

/-- Claim-side fraction of zero bytes at odd offsets within the first
`min (length, 4000)` bytes (`0` when that window has no odd offset). -/
def oddZeroFraction (bytes : List Nat) : ℚ :=
  let sample := bytes.take (min bytes.length 4000)
  let oddSlots := sample.length / 2
  if oddSlots = 0 then 0 else (zeroesAtOddOffsets sample : ℚ) / (oddSlots : ℚ)

theorem zeroOddLoop_le : ∀ l : List Nat, zeroOddLoop l ≤ l.length / 2
  | [] => by simp [zeroOddLoop]
  | [_] => by simp [zeroOddLoop]
  | _ :: b :: rest => by
    have ih := zeroOddLoop_le rest
    simp only [zeroOddLoop, List.length_cons]
    split <;> omega

theorem enumFrom_zeroes : ∀ (l : List Nat) (n : Nat), n % 2 = 0 →
    ((List.enumFrom n l).filter (fun p => p.1 % 2 = 1 && p.2 = 0)).length = zeroOddLoop l
  | [], _ => by
    intro hn
    simp [zeroOddLoop]
  | [a], n => by
    intro hn
    have h1 : (decide (n % 2 = 1) && decide (a = 0)) = false := by
      have : n % 2 ≠ 1 := by omega
      simp [this]
    simp only [List.enumFrom, List.filter_cons, h1, zeroOddLoop]
    simp [zeroOddLoop]
  | a :: b :: rest, n => by
    intro hn
    have ih := enumFrom_zeroes rest (n + 2) (by omega)
    have h1 : (decide (n % 2 = 1) && decide (a = 0)) = false := by
      have : n % 2 ≠ 1 := by omega
      simp [this]
    have h2 : (decide ((n + 1) % 2 = 1) && decide (b = 0)) = decide (b = 0) := by
      have : (n + 1) % 2 = 1 := by omega
      simp [this]
    have h3 : (n + 1) % 2 = 1 := by omega
    by_cases hb : b = 0
    · simp [List.enumFrom, List.filter_cons, h1, h2, hb, h3, zeroOddLoop,
        show n + 1 + 1 = n + 2 from rfl, ih, Nat.add_comm]
    · simp [List.enumFrom, List.filter_cons, h1, h2, hb, h3, zeroOddLoop,
        show n + 1 + 1 = n + 2 from rfl, ih]

theorem zeroesAtOddOffsets_eq (l : List Nat) : zeroesAtOddOffsets l = zeroOddLoop l := by
  unfold zeroesAtOddOffsets List.enum
  exact enumFrom_zeroes l 0 rfl

theorem ratioCond_iff (z L : Nat) (hz : z ≤ L / 2) :
    ((1 / 5 : ℚ) < (z : ℚ) / max 1 ((L : ℚ) / 2)) ↔
      ((1 / 5 : ℚ) < (if L / 2 = 0 then (0 : ℚ) else (z : ℚ) / ((L / 2 : ℕ) : ℚ))) := by
  have hd : (0 : ℚ) < max 1 ((L : ℚ) / 2) := lt_of_lt_of_le one_pos (le_max_left _ _)
  have code_iff : ((1 / 5 : ℚ) < (z : ℚ) / max 1 ((L : ℚ) / 2)) ↔ (1 < z * 5 ∧ L < z * 5 * 2) := by
    rw [div_lt_div_iff₀ (by norm_num) hd, one_mul, max_lt_iff, div_lt_iff₀ (by norm_num)]
    constructor
    · rintro ⟨ha, hb⟩
      exact ⟨by exact_mod_cast ha, by exact_mod_cast hb⟩
    · rintro ⟨ha, hb⟩
      exact ⟨by exact_mod_cast ha, by exact_mod_cast hb⟩
  have spec_iff : ((1 / 5 : ℚ) < (if L / 2 = 0 then (0 : ℚ) else (z : ℚ) / ((L / 2 : ℕ) : ℚ))) ↔
      (L / 2 ≠ 0 ∧ L / 2 < z * 5) := by
    by_cases hk : L / 2 = 0
    · rw [if_pos hk]
      norm_num [hk]
    · rw [if_neg hk]
      have hkpos : (0 : ℚ) < ((L / 2 : ℕ) : ℚ) := by
        exact_mod_cast Nat.pos_of_ne_zero hk
      rw [div_lt_div_iff₀ (by norm_num) hkpos, one_mul]
      constructor
      · intro hlt
        exact ⟨hk, by exact_mod_cast hlt⟩
      · rintro ⟨_, hlt⟩
        exact_mod_cast hlt
  rw [code_iff, spec_iff]
  omega

/-- C7: with no byte-order mark the file is classified UTF-16LE exactly when
the fraction of zero bytes at odd offsets within the first `min (length, 4000)`
bytes exceeds `0.2` (UTF-8 otherwise), and a byte-order mark always selects the
encoding it indicates. -/
theorem C7_encoding_detection (bytes : List Nat) :
    (bomU16Le bytes = true → detectEncoding bytes = Enc.utf16le) ∧
    (bomU16Be bytes = true → detectEncoding bytes = Enc.utf16be) ∧
    (bomU8 bytes = true → detectEncoding bytes = Enc.utf8) ∧
    (bomU16Le bytes = false → bomU16Be bytes = false → bomU8 bytes = false →
      ((detectEncoding bytes = Enc.utf16le ↔ (1 / 5 : ℚ) < oddZeroFraction bytes) ∧
       (detectEncoding bytes = Enc.utf8 ↔ ¬ ((1 / 5 : ℚ) < oddZeroFraction bytes)))) := by
  refine ⟨?_, ?_, ?_, ?_⟩
  · intro h
    simp [detectEncoding, h]
  · intro h
    have hle : bomU16Le bytes = false := by
      rcases bytes with _ | ⟨a, _ | ⟨b, rest⟩⟩
      · simp [bomU16Be] at h
      · simp [bomU16Be] at h
      · simp only [bomU16Be, Bool.and_eq_true, decide_eq_true_eq] at h
        simp [bomU16Le, h.1]
    simp [detectEncoding, hle, h]
  · intro h
    have hle : bomU16Le bytes = false := by
      rcases bytes with _ | ⟨a, _ | ⟨b, _ | ⟨c, rest⟩⟩⟩
      · simp [bomU8] at h
      · simp [bomU8] at h
      · simp [bomU8] at h
      · simp only [bomU8, Bool.and_eq_true, decide_eq_true_eq] at h
        simp [bomU16Le, h.1]
    have hbe : bomU16Be bytes = false := by
      rcases bytes with _ | ⟨a, _ | ⟨b, _ | ⟨c, rest⟩⟩⟩
      · simp [bomU8] at h
      · simp [bomU8] at h
      · simp [bomU8] at h
      · simp only [bomU8, Bool.and_eq_true, decide_eq_true_eq] at h
        simp [bomU16Be, h.1]
    simp [detectEncoding, hle, hbe, h]
  · intro h1 h2 h3
    have hlen : (bytes.take (min bytes.length 4000)).length = min bytes.length 4000 := by
      simp [List.length_take]
    have hz := zeroOddLoop_le (bytes.take (min bytes.length 4000))
    rw [hlen] at hz
    have key := ratioCond_iff (zeroOddLoop (bytes.take (min bytes.length 4000)))
      (min bytes.length 4000) hz
    have hfrac : oddZeroFraction bytes =
        (if min bytes.length 4000 / 2 = 0 then (0 : ℚ)
         else (zeroOddLoop (bytes.take (min bytes.length 4000)) : ℚ) /
           ((min bytes.length 4000 / 2 : ℕ) : ℚ)) := by
      simp only [oddZeroFraction, hlen, zeroesAtOddOffsets_eq]
    simp only [detectEncoding, h1, h2, h3, Bool.false_eq_true, ite_false]
    rw [hfrac]
    constructor
    · split
      · rename_i hC
        exact iff_of_true rfl (key.mp hC)
      · rename_i hC
        exact iff_of_false (by simp) (fun hf => hC (key.mpr hf))
    · split
      · rename_i hC
        exact iff_of_false (by simp) (fun hn => hn (key.mp hC))
      · rename_i hC
        exact iff_of_true rfl (fun hf => hC (key.mpr hf))

/-- C7 witness: the concrete BOM-less bytes `41 00 42 00` are classified
UTF-16LE and their odd-offset zero fraction indeed exceeds `0.2`; a UTF-16LE
BOM is honoured. -/
theorem C7_encoding_detection_witness :
    detectEncoding [65, 0, 66, 0] = Enc.utf16le ∧
    (1 / 5 : ℚ) < oddZeroFraction [65, 0, 66, 0] ∧
    detectEncoding [255, 254, 7] = Enc.utf16le := by
  have hf : (1 / 5 : ℚ) < oddZeroFraction [65, 0, 66, 0] := by
    have hcount : zeroesAtOddOffsets ([65, 0, 66, 0].take (min (List.length [65, 0, 66, 0]) 4000)) = 2 := by
      decide
    simp only [oddZeroFraction, hcount]
    norm_num
  exact ⟨((C7_encoding_detection [65, 0, 66, 0]).2.2.2 rfl rfl rfl).1.mpr hf, hf,
    (C7_encoding_detection [255, 254, 7]).1 rfl⟩

/-! ## C2: weighted average -/

/-- Claim-side: the counted exams, i.e. those whose grade string parses to a
finite number in `[0, 30]` and whose cfu is strictly positive. -/
def countedExams (toNum : String → Option ℚ) (exams : List Exam) : List Exam :=
  exams.filter (fun e => (parseGrade toNum e.grade).isSome && decide ((0 : Int) < e.cfu))

/-- The parsed grade of a counted exam (0 for uncounted ones). -/
def gradeValue (toNum : String → Option ℚ) (e : Exam) : ℚ :=
  (parseGrade toNum e.grade).getD 0

/-- Claim-side: the credit total over the counted exams. -/
def countedCfu (toNum : String → Option ℚ) (exams : List Exam) : ℚ :=
  ((countedExams toNum exams).map (fun e => (e.cfu : ℚ))).sum

/-- Claim-side: the grade-times-credit total over the counted exams. -/
def countedGradeCfu (toNum : String → Option ℚ) (exams : List Exam) : ℚ :=
  ((countedExams toNum exams).map (fun e => gradeValue toNum e * (e.cfu : ℚ))).sum

theorem weightedAverage_foldl (toNum : String → Option ℚ) :
    ∀ (exams : List Exam) (s t : ℚ),
      exams.foldl
        (fun (acc : ℚ × ℚ) e =>
          match parseGrade toNum e.grade with
          | none => acc
          | some g => if e.cfu ≤ (0 : Int) then acc
                      else (acc.1 + g * (e.cfu : ℚ), acc.2 + (e.cfu : ℚ)))
        (s, t) =
      (s + countedGradeCfu toNum exams, t + countedCfu toNum exams) := by
  intro exams
  induction exams with
  | nil =>
    intro s t
    simp [countedGradeCfu, countedCfu, countedExams]
  | cons e rest ih =>
    intro s t
    simp only [List.foldl_cons]
    rcases hg : parseGrade toNum e.grade with _ | g
    · have hcount : countedExams toNum (e :: rest) = countedExams toNum rest := by
        simp [countedExams, List.filter_cons, hg]
      rw [ih]
      simp [countedGradeCfu, countedCfu, hcount]
    · dsimp only
      by_cases hc : e.cfu ≤ (0 : Int)
      · have hcount : countedExams toNum (e :: rest) = countedExams toNum rest := by
          have : ¬ ((0 : Int) < e.cfu) := not_lt.mpr hc
          simp [countedExams, List.filter_cons, this]
        rw [if_pos hc, ih]
        simp [countedGradeCfu, countedCfu, hcount]
      · have hlt : (0 : Int) < e.cfu := lt_of_not_le hc
        have hcount : countedExams toNum (e :: rest) = e :: countedExams toNum rest := by
          simp [countedExams, List.filter_cons, hg, hlt]
        rw [if_neg hc, ih]
        have hgv : gradeValue toNum e = g := by
          simp [gradeValue, hg]
        simp only [countedGradeCfu, countedCfu, hcount, List.map_cons, List.sum_cons, hgv]
        rw [Prod.ext_iff]
        constructor <;> dsimp only <;> ring

/-- C2: the weighted average is the counted grade-times-credit total divided by
the counted credit total, over exactly the exams whose grade string parses to a
finite number in `[0, 30]` and whose cfu is strictly positive; and it is absent
exactly when that credit total is zero. -/
theorem C2_weighted_average (toNum : String → Option ℚ) (exams : List Exam) :
    weightedAverage toNum exams =
      (if countedCfu toNum exams = 0 then none
       else some (countedGradeCfu toNum exams / countedCfu toNum exams)) ∧
    (weightedAverage toNum exams = none ↔ countedCfu toNum exams = 0) := by
  have heq : weightedAverage toNum exams =
      (if countedCfu toNum exams = 0 then none
       else some (countedGradeCfu toNum exams / countedCfu toNum exams)) := by
    unfold weightedAverage
    rw [weightedAverage_foldl toNum exams 0 0]
    simp
  refine ⟨heq, ?_⟩
  rw [heq]
  by_cases h : countedCfu toNum exams = 0
  · simp [h]
  · simp [h]

/-! ## C8: CFU normalization -/

/-- The CFU field pipeline of row normalization: trim, turn the first comma
into a dot, parse with the JS `Number` primitive, coerce through `parseCfu`. -/
def cfuFieldValue (toNum : String → Option ℚ) (raw : String) : Int :=
  parseCfu (toNum (String.mk (commaToDotL (jsTrimL raw.data))))

/-- C8: the CFU field tolerates a comma as decimal separator, is floored and
clamped to be non-negative, defaults to `0` on non-finite input (`30.9` and
`"30,5"` both giving `30`), and a row is kept exactly when its codice and
denominazione are non-blank and its normalized cfu is strictly positive. -/
theorem C8_cfu_normalization :
    (∀ toNum : String → Option ℚ, ∀ raw : String,
      toNum (String.mk (commaToDotL (jsTrimL raw.data))) = none →
        cfuFieldValue toNum raw = 0) ∧
    (∀ toNum : String → Option ℚ, ∀ raw : String, ∀ q : ℚ,
      toNum (String.mk (commaToDotL (jsTrimL raw.data))) = some q →
        cfuFieldValue toNum raw = max 0 ⌊q⌋) ∧
    (∀ o : Option ℚ, 0 ≤ parseCfu o) ∧
    parseCfu (some (309 / 10)) = 30 ∧
    (∀ toNum : String → Option ℚ,
      toNum "30.5" = some (61 / 2) → cfuFieldValue toNum "30,5" = 30) ∧
    (∀ toNum : String → Option ℚ, ∀ m : List (String × String),
      keepRow (normalizeRow toNum m) = true ↔
        ((normalizeRow toNum m).codice ≠ "" ∧ (normalizeRow toNum m).denominazione ≠ "" ∧
          0 < (normalizeRow toNum m).cfu)) ∧
    (∀ toNum : String → Option ℚ, ∀ m : List (String × String),
      (normalizeRow toNum m).cfu = cfuFieldValue toNum (recGet m "CFU")) := by
  have hfloor : (⌊(309 / 10 : ℚ)⌋ : Int) = 30 := by norm_num
  have hfloor2 : (⌊(61 / 2 : ℚ)⌋ : Int) = 30 := by norm_num
  refine ⟨?_, ?_, ?_, ?_, ?_, ?_, ?_⟩
  · intro toNum raw h
    simp [cfuFieldValue, h, parseCfu]
  · intro toNum raw q h
    simp [cfuFieldValue, h, parseCfu]
  · intro o
    rcases o with _ | q
    · simp [parseCfu]
    · simp [parseCfu]
  · simp [parseCfu, hfloor]
  · intro toNum h
    have harg : String.mk (commaToDotL (jsTrimL ("30,5" : String).data)) = "30.5" := by
      decide
    simp [cfuFieldValue, harg, h, parseCfu, hfloor2]
  · intro toNum m
    simp only [keepRow, Bool.and_eq_true, bne_iff_ne, ne_eq, decide_eq_true_eq]
    tauto
  · intro toNum m
    rfl

/-- C8 witness: under the sample `Number` primitive, the CFU field `"30,5"`
normalizes to the integer `30`, and an unparseable field normalizes to `0`. -/
theorem C8_cfu_normalization_witness :
    cfuFieldValue numFixture "30,5" = 30 ∧ cfuFieldValue numFixture "xx" = 0 := by
  have h305 : numFixture "30.5" = some (61 / 2) := by
    have : (Rat.mk' 61 2 (by decide) (by decide)) = (61 / 2 : ℚ) := by
      norm_num [Rat.mk'_eq_divInt, Rat.divInt_eq_div]
    simp [numFixture, this]
  have hxx : numFixture (String.mk (commaToDotL (jsTrimL ("xx" : String).data))) = none := by
    decide
  exact ⟨C8_cfu_normalization.2.2.2.2.1 numFixture h305,
    C8_cfu_normalization.1 numFixture "xx" hxx⟩

/-! ## Merge deduplication (C5, C10) -/

theorem mergeChosen_filter (k : String) : ∀ (ks : List String) (sel : List PlanRow),
    (mergeChosen ks sel).filter (fun r => rowKey r == k) =
      (if k ∈ ks then [] else (sel.filter (fun r => rowKey r == k)).take 1) := by
  intro ks sel
  induction sel generalizing ks with
  | nil =>
    simp only [mergeChosen, List.filter_nil]
    split <;> simp
  | cons r rest ih =>
    simp only [mergeChosen]
    by_cases hc : rowKey r ∈ ks
    · rw [if_pos (List.elem_iff.mpr hc), ih ks]
      by_cases hk : k ∈ ks
      · rw [if_pos hk, if_pos hk]
      · rw [if_neg hk, if_neg hk]
        by_cases hrkp : rowKey r = k
        · exact absurd (hrkp ▸ hc) hk
        · rw [List.filter_cons]
          simp only [beq_eq_false_iff_ne.mpr hrkp, Bool.false_eq_true, ite_false]
    · rw [if_neg (by simpa using hc), List.filter_cons, ih (rowKey r :: ks)]
      by_cases hrkp : rowKey r = k
      · have hknotks : k ∈ ks → False := fun hmem => hc (hrkp ▸ hmem)
        rw [if_pos (by simp [hrkp.symm] : k ∈ rowKey r :: ks)]
        rw [if_neg hknotks]
        simp only [beq_iff_eq.mpr hrkp, ite_true, List.filter_cons,
          beq_iff_eq.mpr hrkp]
        simp [hrkp]
      · have hcontains : (k ∈ rowKey r :: ks) ↔ k ∈ ks := by
          constructor
          · intro hmem
            rcases List.mem_cons.mp hmem with h | h
            · exact absurd h.symm hrkp
            · exact h
          · exact fun hmem => List.mem_cons_of_mem _ hmem
        simp only [beq_eq_false_iff_ne.mpr hrkp, Bool.false_eq_true, ite_false]
        by_cases hk : k ∈ ks
        · rw [if_pos (hcontains.mpr hk), if_pos hk]
        · rw [if_neg (fun hmem => hk (hcontains.mp hmem)), if_neg hk, List.filter_cons]
          simp only [beq_eq_false_iff_ne.mpr hrkp, Bool.false_eq_true, ite_false]

/-- C10: within one merge, even for a key absent from the local exam list, the
exams appended for that key are exactly one per key — the first selected row
bearing it; later selected rows with the same normalized key are skipped. -/
theorem C10_batch_dedup (prev : List Exam) (sel : List PlanRow) (ids : Nat → String)
    (k : String) (hk : k ∉ examKeys prev) :
    (((addSelectedFromFound prev sel ids).1.drop prev.length).filter
        (fun e => normKey e.name e.cfu == k)).map (fun e => (e.name, e.cfu, e.grade)) =
      ((sel.filter (fun r => rowKey r == k)).take 1).map
        (fun r => (r.denominazione, r.cfu, ("" : String))) := by
  have h1 : ∀ l : List Exam,
      (l.filter (fun e => normKey e.name e.cfu == k)).map (fun e => (e.name, e.cfu, e.grade)) =
        (l.map (fun e => (e.name, e.cfu, e.grade))).filter (fun t => normKey t.1 t.2.1 == k) :=
    fun l =>
      (filter_map_factor (fun e => (e.name, e.cfu, e.grade)) (fun t => normKey t.1 t.2.1 == k) l).symm
  have h2 : ∀ l : List PlanRow,
      (l.map (fun r => (r.denominazione, r.cfu, ("" : String)))).filter
          (fun t => normKey t.1 t.2.1 == k) =
        (l.filter (fun r => rowKey r == k)).map (fun r => (r.denominazione, r.cfu, ("" : String))) :=
    fun l =>
      filter_map_factor (fun r => (r.denominazione, r.cfu, ("" : String)))
        (fun t => normKey t.1 t.2.1 == k) l
  simp only [addSelectedFromFound]
  rw [List.drop_left, h1, mkExamsFromRows_proj, h2, mergeChosen_filter, if_neg hk]

/-- C10 witness: with an empty local list, selecting the same row twice adds
exactly one exam for its key, built from the first occurrence. -/
theorem C10_batch_dedup_witness :
    (((addSelectedFromFound [] [rowFixture, rowFixture] idsFixture).1.drop 0).filter
        (fun e => normKey e.name e.cfu == rowKey rowFixture)).map
        (fun e => (e.name, e.cfu, e.grade)) =
      [(rowFixture.denominazione, rowFixture.cfu, ("" : String))] := by
  have h := C10_batch_dedup [] [rowFixture, rowFixture] idsFixture (rowKey rowFixture)
    (by simp [examKeys])
  rw [show (0 : Nat) = ([] : List Exam).length from rfl]
  rw [h]
  decide

theorem map_const_replicate {α : Type} (b : String) :
    ∀ l : List α, l.map (fun _ => b) = List.replicate l.length b := by
  intro l
  induction l with
  | nil => rfl
  | cons a t ih => simp [List.replicate, ih]

/-- Modelled from the claim's words, for comparison with the code: a selected
row is added exactly when its normalized key does not already occur in the
local exam list — with no deduplication inside the selected batch itself. -/
def addedRowsClaimC5 (prev : List Exam) (selected : List PlanRow) : List PlanRow :=
  selected.filter (fun r => !((examKeys prev).contains (rowKey r)))

/-- C5 counterexample: selecting the same row twice over an empty local list.
Under the claim both copies qualify (their key does not occur in the local exam
list), so two exams would be added; the code adds only one, because the key set
is extended during the merge loop. -/
theorem C5_counterexample :
    (addedRowsClaimC5 [] [rowFixture, rowFixture]).length = 2 ∧
    ((addSelectedFromFound [] [rowFixture, rowFixture] idsFixture).1).length = 1 := by
  decide

/-- C5 (amended): a selected row is added exactly when its normalized
(title, cfu) key occurs neither in the local exam list nor among earlier
selected rows of the same merge; per key the first qualifying row is added,
new exams carry a fresh empty grade, the existing list is preserved, and the
skipped count is the number of selected rows not added. -/
theorem C5_merge_key_dedup (prev : List Exam) (sel : List PlanRow) (ids : Nat → String) :
    (∀ k : String,
      (((addSelectedFromFound prev sel ids).1.drop prev.length).filter
          (fun e => normKey e.name e.cfu == k)).map (fun e => (e.name, e.cfu, e.grade)) =
        (if k ∈ examKeys prev then []
         else ((sel.filter (fun r => rowKey r == k)).take 1).map
           (fun r => (r.denominazione, r.cfu, ("" : String))))) ∧
    (addSelectedFromFound prev sel ids).1.take prev.length = prev ∧
    ((addSelectedFromFound prev sel ids).1.drop prev.length).map (fun e => e.grade) =
      List.replicate ((addSelectedFromFound prev sel ids).1.drop prev.length).length "" ∧
    (addSelectedFromFound prev sel ids).2 =
      sel.length - ((addSelectedFromFound prev sel ids).1.drop prev.length).length := by
  refine ⟨?_, ?_, ?_, ?_⟩
  · intro k
    have h1 : (((mkExamsFromRows ids (mergeChosen (examKeys prev) sel)).filter
          (fun e => normKey e.name e.cfu == k)).map (fun e => (e.name, e.cfu, e.grade))) =
        (((mkExamsFromRows ids (mergeChosen (examKeys prev) sel)).map
          (fun e => (e.name, e.cfu, e.grade))).filter (fun t => normKey t.1 t.2.1 == k)) :=
      (filter_map_factor (fun e : Exam => (e.name, e.cfu, e.grade))
        (fun t => normKey t.1 t.2.1 == k) _).symm
    have h2 : ((mergeChosen (examKeys prev) sel).map
          (fun r => (r.denominazione, r.cfu, ("" : String)))).filter
          (fun t => normKey t.1 t.2.1 == k) =
        ((mergeChosen (examKeys prev) sel).filter (fun r => rowKey r == k)).map
          (fun r => (r.denominazione, r.cfu, ("" : String))) :=
      filter_map_factor (fun r : PlanRow => (r.denominazione, r.cfu, ("" : String)))
        (fun t => normKey t.1 t.2.1 == k) _
    simp only [addSelectedFromFound]
    rw [List.drop_left, h1, mkExamsFromRows_proj, h2, mergeChosen_filter]
    split
    · simp
    · rfl
  · simp only [addSelectedFromFound]
    rw [List.take_left]
  · simp only [addSelectedFromFound]
    rw [List.drop_left, mkExamsFromRows_length]
    simp only [mkExamsFromRows, List.enum, List.map_map]
    rw [show ((fun e : Exam => e.grade) ∘
        (fun p : Nat × PlanRow => Exam.mk (ids p.1) p.2.denominazione p.2.cfu "")) =
        (fun p : Nat × PlanRow => ("" : String)) from rfl]
    rw [enumFrom_map_snd (fun _ => ("" : String)) 0, map_const_replicate]
  · simp only [addSelectedFromFound]
    rw [List.drop_left]

/-! ## C1: POST /plans row cleaning -/

theorem postPlans_insert_eq (store : List Plan) (now code : String) (rows : List PlanRow)
    (hcode : code ≠ "") (hre : codeOk (jsTrim code) = true) (hrows : rows ≠ [])
    (hclean : cleanRows rows ≠ [])
    (hfind : store.find? (fun q => q.code == jsTrim code) = none) :
    postPlans store now code rows =
      (Resp.ok (Plan.mk (jsTrim code) (cleanRows rows) now),
       store ++ [Plan.mk (jsTrim code) (cleanRows rows) now]) := by
  simp only [postPlans, postPlansRace, dbInsert]
  rw [if_neg hcode, if_neg (by simp [hre]), if_neg hrows, if_neg hclean]
  rw [hfind]
  simp

/-- Modelled from the claim's words, for comparison with the code: cleaning
that trims the text fields, CLAMPS cfu into `[1, 30]` (instead of dropping
out-of-range rows), drops blank rows, and caps the result at 200. -/
def cleanRowsClaimC1 (rows : List PlanRow) : List PlanRow :=
  ((rows.map (fun r => PlanRow.mk (jsTrim r.codice) (jsTrim r.denominazione)
      (max 1 (min 30 r.cfu)))).filter
    (fun r => r.codice != "" && r.denominazione != "")).take 200

/-- C1 counterexample: a single shape-valid row with cfu 31.  Clamping would
keep it (as cfu 30) so the request would reach the insert; the code instead
drops it and fails the request with the bad-request signal. -/
theorem C1_counterexample :
    (postPlans [] "t0" "07-89" [PlanRow.mk "A" "B" 31]).1 =
      Resp.badRequest "No valid rows after cleaning" ∧
    cleanRowsClaimC1 [PlanRow.mk "A" "B" 31] = [PlanRow.mk "A" "B" 30] := by
  decide

/-- C1 (amended): the POST handler cleans shape-valid rows by trimming the text
fields, keeping only rows whose cfu lies in `[1, 30]` (out-of-range rows are
dropped, not clamped), capping at 200 rows; when nothing survives it fails
with the bad-request signal and the store is untouched, and otherwise the
insert stores exactly the cleaned rows. -/
theorem C1_post_cleaning (store : List Plan) (now code : String) (rows : List PlanRow)
    (hcode : code ≠ "") (hre : codeOk (jsTrim code) = true) (hrows : rows ≠ []) :
    (cleanRows rows = [] →
      postPlans store now code rows = (Resp.badRequest "No valid rows after cleaning", store)) ∧
    (∀ r ∈ cleanRows rows,
      r.codice ≠ "" ∧ r.denominazione ≠ "" ∧ 1 ≤ r.cfu ∧ r.cfu ≤ 30) ∧
    (cleanRows rows).length ≤ 200 ∧
    (cleanRows rows ≠ [] → store.find? (fun q => q.code == jsTrim code) = none →
      postPlans store now code rows =
        (Resp.ok (Plan.mk (jsTrim code) (cleanRows rows) now),
         store ++ [Plan.mk (jsTrim code) (cleanRows rows) now])) := by
  refine ⟨?_, ?_, ?_, ?_⟩
  · intro hclean
    simp only [postPlans, postPlansRace]
    rw [if_neg hcode, if_neg (by simp [hre]), if_neg hrows, if_pos hclean]
  · intro r hr
    have hmem := List.mem_of_mem_take hr
    have hpred := List.of_mem_filter hmem
    simp only [Bool.and_eq_true, bne_iff_ne, ne_eq, decide_eq_true_eq] at hpred
    tauto
  · exact List.length_take_le 200 _
  · intro hclean hfind
    exact postPlans_insert_eq store now code rows hcode hre hrows hclean hfind

/-- C1 witness: a concrete request whose only row has cfu 31 is rejected with
the bad-request signal, leaving the store empty. -/
theorem C1_post_cleaning_witness :
    postPlans [] "t0" "07-89" [PlanRow.mk "A" "B" 31] =
      (Resp.badRequest "No valid rows after cleaning", []) :=
  (C1_post_cleaning [] "t0" "07-89" [PlanRow.mk "A" "B" 31]
    (by decide) (by decide) (by decide)).1 (by decide)

/-! ## C3: create-once conflict behaviour -/

/-- C3: a valid plan document POSTs successfully when its code is absent; an
immediate second POST of the same code yields the conflict signal and leaves
the store — and the stored document — unchanged; and a concurrent writer who
inserts the code between the existence check and the insert is reported with
the very same conflict signal. -/
theorem C3_post_twice_conflict (store : List Plan) (now now2 code : String)
    (rows : List PlanRow)
    (hcode : code ≠ "") (hre : codeOk (jsTrim code) = true) (hrows : rows ≠ [])
    (hclean : cleanRows rows ≠ [])
    (habsent : store.find? (fun q => q.code == jsTrim code) = none) :
    postPlans store now code rows =
      (Resp.ok (Plan.mk (jsTrim code) (cleanRows rows) now),
       store ++ [Plan.mk (jsTrim code) (cleanRows rows) now]) ∧
    postPlans (store ++ [Plan.mk (jsTrim code) (cleanRows rows) now]) now2 code rows =
      (Resp.conflict (jsTrim code),
       store ++ [Plan.mk (jsTrim code) (cleanRows rows) now]) ∧
    (store ++ [Plan.mk (jsTrim code) (cleanRows rows) now]).find?
        (fun q => q.code == jsTrim code) =
      some (Plan.mk (jsTrim code) (cleanRows rows) now) ∧
    (∀ store2 : List Plan, (store2.find? (fun q => q.code == jsTrim code)).isSome = true →
      postPlansRace store store2 now2 code rows = (Resp.conflict (jsTrim code), store2)) := by
  have hfound : (store ++ [Plan.mk (jsTrim code) (cleanRows rows) now]).find?
      (fun q => q.code == jsTrim code) = some (Plan.mk (jsTrim code) (cleanRows rows) now) := by
    rw [List.find?_append, habsent]
    simp
  refine ⟨?_, ?_, hfound, ?_⟩
  · exact postPlans_insert_eq store now code rows hcode hre hrows hclean habsent
  · simp only [postPlans, postPlansRace]
    rw [if_neg hcode, if_neg (by simp [hre]), if_neg hrows, if_neg hclean]
    rw [hfound]
    simp
  · intro store2 hin
    simp only [postPlansRace, dbInsert]
    rw [if_neg hcode, if_neg (by simp [hre]), if_neg hrows, if_neg hclean]
    rw [habsent]
    simp only [Option.isSome_none, Bool.false_eq_true, ite_false]
    rw [hin]
    have hseg : hasSeg "duplicate".data
        (toLowerL ("duplicate key value violates unique constraint" : String).data) = true := by
      decide
    simp [hseg]

/-- C3 witness: inserting plan `07-89` into an empty store succeeds; a second
POST of the same document conflicts and leaves the store holding the original
document; a writer racing between check and insert gets the same conflict. -/
theorem C3_post_twice_conflict_witness :
    postPlans [] "t1" "07-89" [PlanRow.mk "A" "B" 6] = (Resp.ok planFixture, [planFixture]) ∧
    postPlans [planFixture] "t2" "07-89" [PlanRow.mk "A" "B" 6] =
      (Resp.conflict "07-89", [planFixture]) ∧
    postPlansRace [] [planFixture] "t2" "07-89" [PlanRow.mk "A" "B" 6] =
      (Resp.conflict "07-89", [planFixture]) := by
  have h := C3_post_twice_conflict [] "t1" "t2" "07-89" [PlanRow.mk "A" "B" 6]
    (by decide) (by decide) (by decide) (by decide) (by decide)
  exact ⟨h.1, h.2.1, h.2.2.2 [planFixture] (by decide)⟩

/-! ## C4: import atomicity -/

/-- C4: if any stage of the parse pipeline fails, the handler leaves the exam
list exactly as it was; and whenever the handler's exam list is replaced, it is
replaced with precisely the fully parsed rows — network or save failures after
the parse never revert or change it. -/
theorem C4_import_atomicity (toNum : String → Option ℚ) (net : NetEnv) (ids : Nat → String)
    (st : ClientState) (fname text : String) :
    (∀ e, fullParse toNum fname text = Except.error e →
      (handleCsvUpload toNum net ids st fname text).exams = st.exams) ∧
    (∀ code rows, fullParse toNum fname text = Except.ok (code, rows) →
      (handleCsvUpload toNum net ids st fname text).exams = mkExamsFromRows ids rows) := by
  simp only [handleCsvUpload, onPickPlanFile, fullParse, savePhase]
  rcases hname : parseCourseFromFilename fname with _ | ⟨xx, yy⟩
  · constructor
    · intro e _
      rfl
    · intro code rows h
      exact absurd h (by simp)
  · rcases hhead : requireExactHeaders (parseCsvAuto text).1 expectedHeaders with e | u
    · constructor
      · intro e2 _
        rfl
      · intro code rows h
        exact absurd h (by simp)
    · dsimp only
      by_cases hrows : ((parseCsvAuto text).2.1.map (normalizeRow toNum)).filter keepRow = []
      · rw [hrows]
        constructor
        · intro e _
          simp
        · intro code rows h
          simp at h
      · rw [if_neg hrows, if_neg hrows]
        constructor
        · intro e h
          exact absurd h (by simp)
        · intro code rows h
          injection h with h2
          have hrows2 : rows = ((parseCsvAuto text).2.1.map (normalizeRow toNum)).filter keepRow :=
            (Prod.ext_iff.mp h2).2.symm
          subst hrows2
          rcases net.check with _ | _ | ⟨s0, txt⟩ <;>
            rcases hsave : net.save with _ | body <;>
            by_cases hconfirm : net.confirm = true <;>
            simp [hsave, hconfirm]

/-- C4 witness: a file with an invalid name leaves a concrete exam list
untouched. -/
theorem C4_import_atomicity_witness :
    (handleCsvUpload numFixture netFixture idsFixture
        (ClientState.mk [Exam.mk "1" "Analisi 1" 10 "28"] "" "" "") "bad" "x").exams =
      [Exam.mk "1" "Analisi 1" 10 "28"] :=
  (C4_import_atomicity numFixture netFixture idsFixture
    (ClientState.mk [Exam.mk "1" "Analisi 1" 10 "28"] "" "" "") "bad" "x").1
    "Nome file non valido. Deve essere tipo \"70-89.csv\"." rfl
